import Mathlib

/-!
A verification development for the `nxt` Nix-expression evaluator:
a shallow embedding of its semantic front-end (scope-resolving AST builder),
value model and lazy-closure protocol, together with theorems about the
specified behaviour.

The embedding mirrors `src/ast/build.rs`, `src/ast/mod.rs`, `src/value.rs`
and `src/eval.rs`.  Rust `HashMap`s are represented as association lists
(lookup-by-key is all the source uses), `BTreeMap` as a key-sorted
association list, machine integers as `Nat`/`Int` with explicit reductions
where wraparound can occur, and arena references as plain inductive values.
-/

namespace Nxt

/-- A source span, mirroring `codemap::Span` (byte offsets). -/
structure Span where
  lo : Nat
  hi : Nat
deriving Repr, DecidableEq

/-- Mirrors `Span::subspan`: a subrange relative to the start of this span. -/
def Span.subspan (s : Span) (lo hi : Nat) : Span :=
  ⟨s.lo + lo, s.lo + hi⟩

/-- A source file handle, mirroring `codemap::File` (only the span is
relevant for the embedded operations). -/
structure File where
  span : Span
deriving Repr, DecidableEq

/-- Mirrors `Variable` (ast/mod.rs): a resolved local variable, a dense integer id.
The source stores a `u32`; ids are produced as `variables.len() as u32`,
which is modelled by an explicit `% 2 ^ 32` at the production site. -/
abbrev Variable := Nat

/-- Uninterpreted 64-bit float payload standing in for Rust's `f64`
(no claim depends on floating-point semantics). -/
structure Float64 where
  bits : Nat
deriving Repr, DecidableEq

/-- Mirrors `LambdaParameter` (ast/mod.rs): still a TODO in the source, an enum with
no variants. -/
inductive LambdaParameter : Type

mutual

/-- Mirrors `Expr` (ast/mod.rs): a simplified expression node. Arena references
`&'a Expr<'a>` become direct sub-terms. -/
inductive Expr : Type
  /-- Application `<lambda> <argument>`. -/
  | Apply (lambda : Expr) (argument : Expr)
  /-- Assertion `assert <assertion>; <then>`. -/
  | Assert (assertion : Expr) (then_ : Expr)
  /-- Conditional `if <cond> then <then> else <els>`. -/
  | IfElse (cond : Expr) (then_ : Expr) (els : Expr)
  /-- Indexing `set.index`. -/
  | IndexSet (set : Expr) (index : Expr)
  /-- Lambda instantiation. -/
  | Lambda (lam : Lambda)
  /-- Search path `<path>`, looked up in `NIX_PATH` only when evaluated;
  the borrowed `Path` is modelled as a string. -/
  | NixPath (path : String)
  /-- A literal value. -/
  | Value (val : Value)
  /-- A local variable. -/
  | Variable (var : Variable)

/-- Mirrors `Lambda` (ast/mod.rs): flattened captures, optional parameter
description, body. -/
inductive Lambda : Type
  | mk (captures : List Variable) (param : Option LambdaParameter) (body : Expr)

/-- Mirrors `Value` (value.rs): the value a Nix expression was evaluated to.
`BTreeMap<String, &Expr>` is modelled as a key-sorted association list
(see `btreeInsert`); `PathBuf` as a string. -/
inductive Value : Type
  /-- A string or URI (no separate URI type). -/
  | String (s : String)
  /-- A signed 64-bit integer. -/
  | Int (i : Int)
  | Float (f : Float64)
  /-- A (home-)relative or absolute path, expanded to absolute at build time. -/
  | Path (p : String)
  | Bool (b : Bool)
  | Null
  | List (elems : List Expr)
  /-- Entries of the `BTreeMap`, in its iteration order (sorted by key). -/
  | Set (entries : List (String × Expr))

end

/-- Mirrors `Value::as_bool` (value.rs): if this value is a boolean, returns
it.  (Named without the `Value.` prefix because the constructor `Value.Bool`
would shadow `Bool` inside that namespace.) -/
def as_bool : Value → Option Bool
  | Value.Bool b => some b
  | _ => none

mutual

/-- Mirrors `Closure` (value.rs): a lazily evaluated computation with captured
environment.  The `RefCell` indirection is dropped: state transitions are
modelled by returning the updated closure. -/
inductive Closure : Type
  | mk (inner : ClosureInner)

/-- Mirrors `ClosureInner` (value.rs): the closure's state.  The source declares
exactly these two variants. -/
inductive ClosureInner : Type
  /-- Closure has been forced already. -/
  | Evaluated (v : Value)
  /-- Closure has not been evaluated yet. -/
  | Unevaluated (captures : List Closure) (lambda : Lambda)

end

/-- Whether a closure state is the `Evaluated` variant. -/
def ClosureInner.isEvaluated : ClosureInner → Bool
  | ClosureInner.Evaluated _ => true
  | _ => false

/-- Whether a closure state is the `Unevaluated` variant. -/
def ClosureInner.isUnevaluated : ClosureInner → Bool
  | ClosureInner.Unevaluated _ _ => true
  | _ => false

/-! ## Scope resolver / AST builder (ast/build.rs) -/

/-- Mirrors `VarInfo` (ast/mod.rs): information about a local variable.  The field
holding the bound expression is called `value` at the `Builder::new` call
sites in build.rs. -/
structure VarInfo where
  decl_span : Span
  name : String
  value : Expr

/-- Mirrors `Scope` (build.rs): variable entries of one scope.  The `HashMap` is
modelled as an association list; an entry does *not* necessarily mean the
variable was defined in this scope — cached outer-scope lookups are stored
here too. -/
structure Scope where
  entries : List (String × Variable)

/-- Map lookup in a scope (`HashMap::get` / occupied-entry check). -/
def Scope.lookup (s : Scope) (name : String) : Option Variable :=
  s.entries.lookup name

/-- Map insertion at a key known to be absent (`VacantEntry::insert`). -/
def Scope.insert (s : Scope) (name : String) (v : Variable) : Scope :=
  ⟨(name, v) :: s.entries⟩

/-- The mutable state of `Builder` (build.rs): the scope stack and the
`Variable`-id side table (named `variables` in the source; `vars` here
because `variables` is a reserved word).  The scope list is kept
innermost-first (the Rust `Vec` keeps the innermost scope *last*; the
reversal is a representation choice only). -/
structure BuilderState where
  scopes : List Scope
  vars : List VarInfo

/-- Walk a list of scopes (innermost-first) and return the first hit for
`name` — the loop over `rest.iter_mut().rev()` in
`Builder::resolve_local_variable`. -/
def lookupScopes : List Scope → String → Option Variable
  | [], _ => none
  | s :: rest, name =>
    match s.lookup name with
    | some v => some v
    | none => lookupScopes rest name

/-- Mirrors `Builder::resolve_local_variable` (build.rs): look `name` up in the
innermost scope; on a miss walk the outer scopes innermost → outermost and
cache the first hit in the innermost scope; fail if no scope has an entry.
The `Err(())` of the source is `Except.error ()`; the (unreachable) panic on
an empty scope stack is also modelled as an error with unchanged state. -/
def resolveLocalVariable (st : BuilderState) (name : String) :
    Except Unit Variable × BuilderState :=
  match st.scopes with
  | [] => (Except.error (), st)
  | inner :: rest =>
    match inner.lookup name with
    | some v => (Except.ok v, st)
    | none =>
      match lookupScopes rest name with
      | some v =>
        (Except.ok v, ⟨inner.insert name v :: rest, st.vars⟩)
      | none => (Except.error (), st)

/-- Mirrors `Builder::define_variable` (build.rs): assign the next sequential id
(`variables.len() as u32`, hence the `% 2 ^ 32`), fail if the innermost
scope already has an entry for the name, otherwise insert the entry and
append the `VarInfo` to the side table. -/
def defineVariable (st : BuilderState) (var : VarInfo) :
    Except Unit Variable × BuilderState :=
  let vid : Variable := st.vars.length % 2 ^ 32
  match st.scopes with
  | [] => (Except.error (), st)
  | inner :: rest =>
    match inner.lookup var.name with
    | some _ => (Except.error (), st)
    | none =>
      (Except.ok vid,
        ⟨inner.insert var.name vid :: rest, st.vars ++ [var]⟩)

/-- The `VarInfo` for the built-in `true` binding seeded by `Builder::new`. -/
def trueVarInfo (file : File) : VarInfo :=
  ⟨file.span.subspan 0 0, "true", Expr.Value (Value.Bool true)⟩

/-- The `VarInfo` for the built-in `false` binding seeded by `Builder::new`. -/
def falseVarInfo (file : File) : VarInfo :=
  ⟨file.span.subspan 0 0, "false", Expr.Value (Value.Bool false)⟩

/-- Mirrors `Builder::new` (build.rs): one empty root scope, then the built-ins
`true` and `false` are defined (both `define_variable` calls succeed on the
empty root scope; the source unwraps them). -/
def initialBuilder (file : File) : BuilderState :=
  let st0 : BuilderState := ⟨[⟨[]⟩], []⟩
  let st1 := (defineVariable st0 (trueVarInfo file)).2
  (defineVariable st1 (falseVarInfo file)).2

/-- Modelled from the spec: scopes "are pushed when entering a construct
that introduces bindings" (§3).  The binding constructs themselves are
still `unimplemented!()` in build.rs, so the push operation is the spec's:
a fresh empty scope becomes the innermost scope. -/
def pushScope (st : BuilderState) : BuilderState :=
  ⟨⟨[]⟩ :: st.scopes, st.vars⟩

/-- Modelled from the spec: scopes are "popped on exit" (§3); the innermost
scope is discarded. -/
def popScope (st : BuilderState) : BuilderState :=
  ⟨st.scopes.tail, st.vars⟩

/-- Builder states reachable from `Builder::new` by the scope/variable
operations (the root scope is never popped). -/
inductive Reachable : BuilderState → Prop
  | init (file : File) : Reachable (initialBuilder file)
  | define (st : BuilderState) (var : VarInfo) :
      Reachable st → Reachable (defineVariable st var).2
  | resolve (st : BuilderState) (name : String) :
      Reachable st → Reachable (resolveLocalVariable st name).2
  | push (st : BuilderState) : Reachable st → Reachable (pushScope st)
  | pop (st : BuilderState) :
      Reachable st → 2 ≤ st.scopes.length → Reachable (popScope st)

/-- A build error (parser.rs `Error`): a span and a message (the
`span_loc` field is derived from these plus the file). -/
structure Error where
  span : Span
  msg : String
deriving Repr, DecidableEq

/-- Mirrors `Error::at` (parser.rs): an error at a node's range within `file`. -/
def errorAt (file : File) (lo hi : Nat) (msg : String) : Error :=
  ⟨file.span.subspan lo hi, msg⟩

/-- A raw identifier node: its name and its range in the source file. -/
structure Ident where
  name : String
  lo : Nat
  hi : Nat

/-- The `RawExpr::Ident` arm of `Builder::translate_expr` (build.rs):
resolve the identifier; a resolution failure becomes an error at the
identifier's location with message "cannot resolve variable". -/
def translateIdent (file : File) (st : BuilderState) (id : Ident) :
    Except Error (Expr × BuilderState) :=
  match resolveLocalVariable st id.name with
  | (Except.ok v, st') => Except.ok (Expr.Variable v, st')
  | (Except.error _, _) =>
    Except.error (errorAt file id.lo id.hi "cannot resolve variable")

/-- Apply a sequence of resolution queries for their state (cache) effect. -/
def applyResolves (st : BuilderState) (queries : List String) : BuilderState :=
  queries.foldl (fun s q => (resolveLocalVariable s q).2) st

/-- A concrete file used to instantiate universally quantified statements. -/
def file₀ : File := ⟨⟨0, 100⟩⟩

/-! ## Lemmas about scope lookup and resolution -/

theorem lookup_cons (k : String) (v : Variable) (es : List (String × Variable))
    (name : String) :
    Scope.lookup ⟨(k, v) :: es⟩ name =
      if name = k then some v else Scope.lookup ⟨es⟩ name := by
  simp only [Scope.lookup, List.lookup]
  by_cases h : name = k
  · simp [h]
  · rw [show (name == k) = false from beq_eq_false_iff_ne.mpr h, if_neg h]

theorem lookup_mem {s : Scope} {name : String} {v : Variable}
    (h : s.lookup name = some v) : ∃ p ∈ s.entries, p.2 = v := by
  obtain ⟨es⟩ := s
  induction es with
  | nil => simp [Scope.lookup, List.lookup] at h
  | cons hd tl ih =>
    obtain ⟨k, w⟩ := hd
    rw [show (⟨(k, w) :: tl⟩ : Scope) = ⟨(k, w) :: tl⟩ from rfl, lookup_cons] at h
    by_cases hk : name = k
    · simp [hk] at h
      exact ⟨(k, w), by simp, by simpa using h⟩
    · simp [hk] at h
      obtain ⟨p, hp, hpv⟩ := ih h
      exact ⟨p, by simp [hp], hpv⟩

theorem lookupScopes_mem {scopes : List Scope} {name : String} {v : Variable}
    (h : lookupScopes scopes name = some v) :
    ∃ s ∈ scopes, ∃ p ∈ s.entries, p.2 = v := by
  induction scopes with
  | nil => simp [lookupScopes] at h
  | cons s rest ih =>
    rw [lookupScopes] at h
    cases hs : s.lookup name with
    | some w =>
      rw [hs] at h
      obtain ⟨p, hp, hpv⟩ := lookup_mem hs
      exact ⟨s, by simp, p, hp, by simp_all⟩
    | none =>
      rw [hs] at h
      obtain ⟨s', hs', hp⟩ := ih h
      exact ⟨s', by simp [hs'], hp⟩

/-- The result component of resolution equals the naive cache-free walk of
the whole scope stack. -/
theorem resolve_fst (st : BuilderState) (name : String) :
    (resolveLocalVariable st name).1 =
      match lookupScopes st.scopes name with
      | some v => Except.ok v
      | none => Except.error () := by
  obtain ⟨scopes, vars⟩ := st
  cases scopes with
  | nil => rfl
  | cons inner rest =>
    simp only [resolveLocalVariable, lookupScopes]
    cases h1 : inner.lookup name with
    | some v => rfl
    | none =>
      cases h2 : lookupScopes rest name with
      | some v => rfl
      | none => rfl

/-- Resolution never changes what the cache-free walk finds, for any name:
the cache entry it may add to the innermost scope reproduces the walk. -/
theorem resolve_preserves_lookup (st : BuilderState) (name m : String) :
    lookupScopes (resolveLocalVariable st name).2.scopes m =
      lookupScopes st.scopes m := by
  obtain ⟨scopes, vars⟩ := st
  cases scopes with
  | nil => rfl
  | cons inner rest =>
    simp only [resolveLocalVariable]
    cases h1 : inner.lookup name with
    | some v => rfl
    | none =>
      cases h2 : lookupScopes rest name with
      | none => rfl
      | some v =>
        simp only [lookupScopes, Scope.insert, lookup_cons]
        by_cases hm : m = name
        · subst hm
          rw [h1, if_pos rfl, h2]
        · rw [if_neg hm]

theorem applyResolves_preserves_lookup (queries : List String)
    (st : BuilderState) (m : String) :
    lookupScopes (applyResolves st queries).scopes m =
      lookupScopes st.scopes m := by
  induction queries generalizing st with
  | nil => rfl
  | cons q qs ih =>
    simp only [applyResolves, List.foldl_cons]
    rw [show (List.foldl (fun s q => (resolveLocalVariable s q).2) (resolveLocalVariable st q).2 qs) = applyResolves (resolveLocalVariable st q).2 qs from rfl]
    rw [ih, resolve_preserves_lookup]

/-! ## Claims about identifier resolution and declaration -/

/-- C2: `resolve_local_variable` returns the innermost scope's entry when
one is present; otherwise it walks the outer scopes from innermost to
outermost and returns the first hit, inserting a cache entry into the
innermost scope; if no scope has an entry it fails, and translating the
identifier produces an unresolved-variable error tagged with the
identifier's source location. -/
theorem resolve_local_variable_spec (st : BuilderState) (inner : Scope)
    (rest : List Scope) (name : String) (hs : st.scopes = inner :: rest) :
    (∀ v, inner.lookup name = some v →
      resolveLocalVariable st name = (Except.ok v, st)) ∧
    (∀ v, inner.lookup name = none → lookupScopes rest name = some v →
      resolveLocalVariable st name =
        (Except.ok v, ⟨inner.insert name v :: rest, st.vars⟩)) ∧
    (inner.lookup name = none → lookupScopes rest name = none →
      resolveLocalVariable st name = (Except.error (), st)) ∧
    (∀ (file : File) (id : Ident), id.name = name →
      (resolveLocalVariable st name).1 = Except.error () →
      translateIdent file st id =
        Except.error (errorAt file id.lo id.hi "cannot resolve variable")) := by
  obtain ⟨scopes, vars⟩ := st
  simp only at hs
  subst hs
  refine ⟨?_, ?_, ?_, ?_⟩
  · intro v hv
    simp only [resolveLocalVariable, hv]
  · intro v h1 h2
    simp only [resolveLocalVariable, h1, h2]
  · intro h1 h2
    simp only [resolveLocalVariable, h1, h2]
  · intro file id hid herr
    unfold translateIdent
    rw [hid]
    cases hr : resolveLocalVariable ⟨inner :: rest, vars⟩ name with
    | mk r st' =>
      rw [hr] at herr
      simp only at herr
      cases r with
      | ok v => exact absurd herr (by simp)
      | error e => rfl

/-- C2 witness: a concrete instantiation exercising the cache-inserting
branch: the innermost scope is empty, the outer scope binds "x" to 5. -/
theorem resolve_local_variable_spec_witness :
    resolveLocalVariable ⟨[⟨[]⟩, ⟨[("x", 5)]⟩], []⟩ "x" =
      (Except.ok 5, ⟨[⟨[("x", 5)]⟩, ⟨[("x", 5)]⟩], []⟩) :=
  (resolve_local_variable_spec ⟨[⟨[]⟩, ⟨[("x", 5)]⟩], []⟩ ⟨[]⟩ [⟨[("x", 5)]⟩]
    "x" rfl).2.1 5 rfl rfl

/-- C3: lookup caching is observationally transparent: after any sequence
of prior queries the resolved `Variable` is unchanged, resolving the same
name twice yields the identical id, and the resolution result is exactly
the naive cache-free walk of the scope stack. -/
theorem resolution_cache_transparent (st : BuilderState)
    (queries : List String) (name : String) :
    (resolveLocalVariable (applyResolves st queries) name).1 =
      (resolveLocalVariable st name).1 ∧
    (resolveLocalVariable (resolveLocalVariable st name).2 name).1 =
      (resolveLocalVariable st name).1 ∧
    (resolveLocalVariable st name).1 =
      (match lookupScopes st.scopes name with
       | some v => Except.ok v
       | none => Except.error ()) := by
  refine ⟨?_, ?_, resolve_fst st name⟩
  · rw [resolve_fst, resolve_fst, applyResolves_preserves_lookup]
  · rw [resolve_fst, resolve_fst, resolve_preserves_lookup]

/-- C1 counterexample: resolving "true" from a freshly pushed nested scope
caches an entry for it in that scope; a subsequent declaration of "true"
there then fails, although "true" was never declared in that scope — only
cached.  This refutes "fails if and only if that name was already declared
in the exact same scope". -/
theorem define_after_cache_only_errs :
    (defineVariable
        ((resolveLocalVariable (pushScope (initialBuilder file₀)) "true").2)
        ⟨file₀.span.subspan 3 7, "true", Expr.Value Value.Null⟩).1 =
      Except.error () := rfl

/-- C1 (amended): declaring a variable fails exactly when the innermost
scope already has an *entry* for the name — whether declared there or
cached there by a prior resolution of an outer binding.  Declaring the same
name twice in one scope still fails, and declaring any name in a freshly
pushed nested scope succeeds (shadowing an outer declaration). -/
theorem define_variable_occupied (st : BuilderState) (inner : Scope)
    (rest : List Scope) (var : VarInfo) (hs : st.scopes = inner :: rest) :
    ((defineVariable st var).1 = Except.error () ↔
      (inner.lookup var.name).isSome = true) ∧
    (∀ (st' : BuilderState) (v : VarInfo),
      (defineVariable (pushScope st') v).1 =
        Except.ok (st'.vars.length % 2 ^ 32)) ∧
    (∀ v₂ : VarInfo, v₂.name = var.name →
      (defineVariable st var).1 ≠ Except.error () →
      (defineVariable (defineVariable st var).2 v₂).1 = Except.error ()) := by
  obtain ⟨scopes, vars⟩ := st
  simp only at hs
  subst hs
  refine ⟨?_, ?_, ?_⟩
  · cases h : inner.lookup var.name with
    | some v => simp [defineVariable, h]
    | none => simp [defineVariable, h]
  · intro st' v
    rfl
  · intro v₂ hname hok
    cases h : inner.lookup var.name with
    | some v => exact absurd (by simp [defineVariable, h]) hok
    | none =>
      simp only [defineVariable, h]
      rw [show Scope.lookup ((Scope.insert inner var.name (vars.length % 2 ^ 32))) v₂.name = some (vars.length % 2 ^ 32) by
        simp [Scope.insert, lookup_cons, hname]]

/-- C1 amended-claim witness: the root scope of a fresh builder already has
an entry for "true", so redeclaring it fails. -/
theorem define_variable_occupied_witness :
    (defineVariable (initialBuilder file₀) (trueVarInfo file₀)).1 =
      Except.error () :=
  (define_variable_occupied (initialBuilder file₀)
      ⟨[("false", 1), ("true", 0)]⟩ [] (trueVarInfo file₀) rfl).1.mpr rfl

/-! ## Dense variable ids (claim C10 machinery) -/

/-- Every variable id stored in any scope entry is a valid index into the
`variables` side table. -/
def ScopeIdsValid (st : BuilderState) : Prop :=
  ∀ s ∈ st.scopes, ∀ p ∈ s.entries, p.2 < st.vars.length

/-- Ids 0 and 1 of the side table are the built-ins `true` and `false`. -/
def BuiltinsSeeded (st : BuilderState) : Prop :=
  (st.vars[0]?).map VarInfo.name = some "true" ∧
  (st.vars[0]?).map VarInfo.value = some (Expr.Value (Value.Bool true)) ∧
  (st.vars[1]?).map VarInfo.name = some "false" ∧
  (st.vars[1]?).map VarInfo.value = some (Expr.Value (Value.Bool false))

theorem initialBuilder_eq (file : File) :
    initialBuilder file =
      ⟨[⟨[("false", 1), ("true", 0)]⟩],
        [trueVarInfo file, falseVarInfo file]⟩ := rfl

theorem getElem?_append_some {α : Type} {l l' : List α} {i : Nat} {x : α}
    (h : l[i]? = some x) : (l ++ l')[i]? = some x := by
  have hi : i < l.length := by
    by_contra hlt
    push_neg at hlt
    rw [List.getElem?_eq_none hlt] at h
    cases h
  rw [List.getElem?_append_left hi]
  exact h

theorem builtins_vars_eq {st st' : BuilderState} (h : BuiltinsSeeded st)
    (hv : st'.vars = st.vars) : BuiltinsSeeded st' := by
  obtain ⟨b1, b2, b3, b4⟩ := h
  exact ⟨by rw [hv]; exact b1, by rw [hv]; exact b2,
    by rw [hv]; exact b3, by rw [hv]; exact b4⟩

theorem builtins_append {st st' : BuilderState} (h : BuiltinsSeeded st)
    (l : List VarInfo) (hv : st'.vars = st.vars ++ l) :
    BuiltinsSeeded st' := by
  obtain ⟨b1, b2, b3, b4⟩ := h
  cases h0 : st.vars[0]? with
  | none => rw [h0] at b1; cases b1
  | some x0 =>
    cases h1 : st.vars[1]? with
    | none => rw [h1] at b3; cases b3
    | some x1 =>
      rw [h0] at b1 b2
      rw [h1] at b3 b4
      refine ⟨?_, ?_, ?_, ?_⟩
      · rw [hv, getElem?_append_some h0]; exact b1
      · rw [hv, getElem?_append_some h0]; exact b2
      · rw [hv, getElem?_append_some h1]; exact b3
      · rw [hv, getElem?_append_some h1]; exact b4

theorem resolve_vars_eq (st : BuilderState) (name : String) :
    (resolveLocalVariable st name).2.vars = st.vars := by
  obtain ⟨scopes, vars⟩ := st
  cases scopes with
  | nil => rfl
  | cons inner rest =>
    simp only [resolveLocalVariable]
    cases h1 : inner.lookup name with
    | some v => rfl
    | none =>
      cases h2 : lookupScopes rest name with
      | some v => rfl
      | none => rfl

theorem inv_init (file : File) :
    ScopeIdsValid (initialBuilder file) ∧ BuiltinsSeeded (initialBuilder file) := by
  rw [initialBuilder_eq]
  constructor
  · intro s hs p hp
    simp only [List.mem_singleton] at hs
    subst hs
    simp only [List.mem_cons, List.mem_singleton, List.not_mem_nil, or_false] at hp
    rcases hp with rfl | rfl
    · show (1 : Nat) < 2
      omega
    · show (0 : Nat) < 2
      omega
  · exact ⟨rfl, rfl, rfl, rfl⟩

theorem inv_define (st : BuilderState) (var : VarInfo)
    (h1 : ScopeIdsValid st) (h2 : BuiltinsSeeded st) :
    ScopeIdsValid (defineVariable st var).2 ∧
      BuiltinsSeeded (defineVariable st var).2 := by
  obtain ⟨scopes, vars⟩ := st
  cases scopes with
  | nil => exact ⟨h1, h2⟩
  | cons inner rest =>
    cases h : inner.lookup var.name with
    | some v =>
      simp only [defineVariable, h]
      exact ⟨h1, h2⟩
    | none =>
      have heq : (defineVariable ⟨inner :: rest, vars⟩ var).2 =
          ⟨Scope.insert inner var.name (vars.length % 2 ^ 32) :: rest,
            vars ++ [var]⟩ := by
        simp [defineVariable, h]
      rw [heq]
      constructor
      · intro s hs p hp
        show p.2 < (vars ++ [var]).length
        rw [List.length_append, List.length_singleton]
        simp only [List.mem_cons] at hs
        rcases hs with rfl | hs
        · simp only [Scope.insert, List.mem_cons] at hp
          rcases hp with rfl | hp
          · show vars.length % 2 ^ 32 < vars.length + 1
            exact Nat.lt_succ_of_le (Nat.mod_le _ _)
          · have hlt : p.2 < vars.length := h1 inner (by simp) p hp
            exact Nat.lt_succ_of_lt hlt
        · have hlt : p.2 < vars.length := h1 s (by simp [hs]) p hp
          exact Nat.lt_succ_of_lt hlt
      · exact builtins_append h2 [var] rfl

theorem inv_resolve (st : BuilderState) (name : String)
    (h1 : ScopeIdsValid st) (h2 : BuiltinsSeeded st) :
    ScopeIdsValid (resolveLocalVariable st name).2 ∧
      BuiltinsSeeded (resolveLocalVariable st name).2 := by
  refine ⟨?_, builtins_vars_eq h2 (resolve_vars_eq st name)⟩
  obtain ⟨scopes, vars⟩ := st
  cases scopes with
  | nil => exact h1
  | cons inner rest =>
    simp only [resolveLocalVariable]
    cases hl : inner.lookup name with
    | some v => exact h1
    | none =>
      cases hw : lookupScopes rest name with
      | none => exact h1
      | some v =>
        show ScopeIdsValid ⟨Scope.insert inner name v :: rest, vars⟩
        intro s hs p hp
        show p.2 < vars.length
        simp only [List.mem_cons] at hs
        rcases hs with rfl | hs
        · simp only [Scope.insert, List.mem_cons] at hp
          rcases hp with rfl | hp
          · obtain ⟨s', hs', p', hp', hpv⟩ := lookupScopes_mem hw
            have hlt : p'.2 < vars.length := h1 s' (by simp [hs']) p' hp'
            show v < vars.length
            exact hpv ▸ hlt
          · exact h1 inner (by simp) p hp
        · exact h1 s (by simp [hs]) p hp

theorem inv_reach {st : BuilderState} (h : Reachable st) :
    ScopeIdsValid st ∧ BuiltinsSeeded st := by
  induction h with
  | init file => exact inv_init file
  | define st var _ ih => exact inv_define st var ih.1 ih.2
  | resolve st name _ ih => exact inv_resolve st name ih.1 ih.2
  | push st _ ih =>
    refine ⟨?_, builtins_vars_eq ih.2 rfl⟩
    intro s hs p hp
    simp only [pushScope, List.mem_cons] at hs
    rcases hs with rfl | hs
    · cases hp
    · exact ih.1 s hs p hp
  | pop st _ _ ih =>
    refine ⟨?_, builtins_vars_eq ih.2 rfl⟩
    intro s hs p hp
    simp only [popScope] at hs
    exact ih.1 s (List.mem_of_mem_tail hs) p hp

/-- C10: a successful `define_variable` call assigns the id equal to the
current length of the `variables` side table (as a `u32`; exactly the
length whenever the table is shorter than `2^32`) and appends the
`VarInfo`; a failed call leaves the state — in particular the side table —
completely unchanged, so the id is not consumed.  In every reachable
builder state all ids stored in scopes are valid dense indices into the
side table, and indices 0 and 1 hold the built-ins `true` and `false`. -/
theorem define_variable_dense_ids :
    (∀ (st : BuilderState) (var : VarInfo) (v : Variable) (st' : BuilderState),
      defineVariable st var = (Except.ok v, st') →
      st'.vars = st.vars ++ [var] ∧ v = st.vars.length % 2 ^ 32 ∧
        (st.vars.length < 2 ^ 32 → v = st.vars.length)) ∧
    (∀ (st : BuilderState) (var : VarInfo) (st' : BuilderState),
      defineVariable st var = (Except.error (), st') → st' = st) ∧
    (∀ st : BuilderState, Reachable st →
      ScopeIdsValid st ∧ BuiltinsSeeded st) := by
  refine ⟨?_, ?_, fun st h => inv_reach h⟩
  · intro st var v st' hdef
    obtain ⟨scopes, vars⟩ := st
    cases scopes with
    | nil => exact absurd (congrArg Prod.fst hdef) (by simp [defineVariable])
    | cons inner rest =>
      cases h : inner.lookup var.name with
      | some w =>
        rw [show defineVariable ⟨inner :: rest, vars⟩ var =
          (Except.error (), ⟨inner :: rest, vars⟩) by simp [defineVariable, h]] at hdef
        exact absurd (congrArg Prod.fst hdef) (by simp)
      | none =>
        rw [show defineVariable ⟨inner :: rest, vars⟩ var =
          (Except.ok (vars.length % 2 ^ 32),
            ⟨Scope.insert inner var.name (vars.length % 2 ^ 32) :: rest,
              vars ++ [var]⟩) by simp [defineVariable, h]] at hdef
        have h1 := congrArg Prod.fst hdef
        have h2 := congrArg Prod.snd hdef
        simp only at h1 h2
        have hv : v = vars.length % 2 ^ 32 := (Except.ok.inj h1).symm
        refine ⟨by rw [← h2], hv, ?_⟩
        intro hsmall
        rw [hv]
        exact Nat.mod_eq_of_lt hsmall
  · intro st var st' hdef
    obtain ⟨scopes, vars⟩ := st
    cases scopes with
    | nil => exact (congrArg Prod.snd hdef).symm
    | cons inner rest =>
      cases h : inner.lookup var.name with
      | some w =>
        rw [show defineVariable ⟨inner :: rest, vars⟩ var =
          (Except.error (), ⟨inner :: rest, vars⟩) by simp [defineVariable, h]] at hdef
        exact (congrArg Prod.snd hdef).symm
      | none =>
        rw [show defineVariable ⟨inner :: rest, vars⟩ var =
          (Except.ok (vars.length % 2 ^ 32),
            ⟨Scope.insert inner var.name (vars.length % 2 ^ 32) :: rest,
              vars ++ [var]⟩) by simp [defineVariable, h]] at hdef
        exact absurd (congrArg Prod.fst hdef) (by simp)

/-- C10 witness: the invariant holds at the concrete initial builder state,
whose hypothesis `Reachable` is discharged by the `init` rule. -/
theorem define_variable_dense_ids_witness :
    ScopeIdsValid (initialBuilder file₀) ∧ BuiltinsSeeded (initialBuilder file₀) :=
  define_variable_dense_ids.2.2 (initialBuilder file₀) (Reachable.init file₀)

/-! ## Closure states and forcing (value.rs; spec section 4.4) -/

/-- C4: the claim asks for a third transient "being forced" closure state,
but `ClosureInner` (value.rs lines 120–135) consists of exactly the two
variants `Evaluated` and `Unevaluated`: every closure state is one of the
two, so no third state distinguishable from both exists, and no forcing
code (which the claim's detection behaviour would live in) exists in the
source at all. -/
theorem closure_has_exactly_two_states (s : ClosureInner) :
    s.isEvaluated = true ∨ s.isUnevaluated = true := by
  cases s with
  | Evaluated v => exact Or.inl rfl
  | Unevaluated caps lam => exact Or.inr rfl

/-- Result of one forcing step: the closure afterwards, the value it
yielded, and how many underlying evaluations were performed. -/
structure ForceResult where
  closure : Closure
  value : Value
  evals : Nat

/-- Modelled from the spec: `force(closure)` of section 4.4 — the source
never implements forcing (evaluation of every non-literal expression is
`unimplemented!()`), so the memoization contract is modelled over the
source's `ClosureInner`: if already `Evaluated`, return the stored value
with no recomputation; if `Unevaluated`, run the underlying evaluation
(abstracted as `evalFn` over the lambda and its flattened captures), store
the result and transition to `Evaluated`.  `evals` counts underlying
evaluations. -/
def forceOnce (evalFn : Lambda → List Closure → Value) : Closure → ForceResult
  | Closure.mk (ClosureInner.Evaluated v) =>
    ⟨Closure.mk (ClosureInner.Evaluated v), v, 0⟩
  | Closure.mk (ClosureInner.Unevaluated caps lam) =>
    ⟨Closure.mk (ClosureInner.Evaluated (evalFn lam caps)), evalFn lam caps, 1⟩

/-- Iterate forcing `k` times, returning the final closure and the total
number of underlying evaluations. -/
def forceMany (evalFn : Lambda → List Closure → Value) :
    Nat → Closure → Closure × Nat
  | 0, c => (c, 0)
  | k + 1, c =>
    let r := forceOnce evalFn c
    let rest := forceMany evalFn k r.closure
    (rest.1, r.evals + rest.2)

theorem forceMany_evaluated (evalFn : Lambda → List Closure → Value)
    (k : Nat) (v : Value) :
    forceMany evalFn k (Closure.mk (ClosureInner.Evaluated v)) =
      (Closure.mk (ClosureInner.Evaluated v), 0) := by
  induction k with
  | zero => rfl
  | succ k ih => simp [forceMany, forceOnce, ih]

/-- C5: forcing is memoized — an `Evaluated` closure yields its stored
value with zero further evaluations and stays unchanged; forcing an
`Unevaluated` closure performs exactly one evaluation and transitions it to
`Evaluated`; and any positive number of consecutive forces performs the
underlying evaluation exactly once in total, so the transition
Unevaluated → Evaluated happens at most once. -/
theorem force_memoized (evalFn : Lambda → List Closure → Value) :
    (∀ v, forceOnce evalFn (Closure.mk (ClosureInner.Evaluated v)) =
      ⟨Closure.mk (ClosureInner.Evaluated v), v, 0⟩) ∧
    (∀ caps lam,
      forceOnce evalFn (Closure.mk (ClosureInner.Unevaluated caps lam)) =
        ⟨Closure.mk (ClosureInner.Evaluated (evalFn lam caps)),
          evalFn lam caps, 1⟩) ∧
    (∀ k caps lam, 1 ≤ k →
      forceMany evalFn k (Closure.mk (ClosureInner.Unevaluated caps lam)) =
        (Closure.mk (ClosureInner.Evaluated (evalFn lam caps)), 1)) := by
  refine ⟨fun v => rfl, fun caps lam => rfl, ?_⟩
  intro k caps lam hk
  cases k with
  | zero => cases hk
  | succ k =>
    simp [forceMany, forceOnce, forceMany_evaluated]

/-- C5 witness: two consecutive forces of a concrete unevaluated closure
perform the underlying evaluation once. -/
theorem force_memoized_witness :
    forceMany (fun _ _ => Value.Null) 2
        (Closure.mk (ClosureInner.Unevaluated [] (Lambda.mk [] none (Expr.Value Value.Null)))) =
      (Closure.mk (ClosureInner.Evaluated Value.Null), 1) :=
  (force_memoized (fun _ _ => Value.Null)).2.2 2 []
    (Lambda.mk [] none (Expr.Value Value.Null)) (by omega)

/-! ## Attribute sets: sorted-key enumeration (value.rs `Value::Set`) -/

/-- Insertion into the key-sorted association list representing
`BTreeMap<String, &Expr>` (Rust standard library ordered-map semantics, the
collection `Value::Set` stores): entries stay strictly sorted by key and
inserting an existing key replaces its entry. -/
def btreeInsert : List (String × Expr) → String → Expr → List (String × Expr)
  | [], k, v => [(k, v)]
  | (k', v') :: rest, k, v =>
    if k < k' then (k, v) :: (k', v') :: rest
    else if k = k' then (k, v) :: rest
    else (k', v') :: btreeInsert rest k v

/-- Build a `Value::Set` by inserting the given pairs in order (any
declaration order of the attributes). -/
def setFromList (pairs : List (String × Expr)) : Value :=
  Value.Set (pairs.foldl (fun acc kv => btreeInsert acc kv.1 kv.2) [])

/-- Enumeration of a set's attributes: the entry list of the map, in its
iteration order. -/
def setEntries : Value → List (String × Expr)
  | Value.Set m => m
  | _ => []

/-- Display order of a set's keys: the `Display` impl for `Value` (value.rs
line 98) writes `map.iter()`'s entries in iteration order. -/
def displayKeys (v : Value) : List String :=
  (setEntries v).map Prod.fst

/-- Strictly-ascending-keys predicate on map entries. -/
def KeysSorted (l : List (String × Expr)) : Prop :=
  l.Pairwise (fun p q => p.1 < q.1)

theorem mem_btreeInsert {l : List (String × Expr)} {k : String} {v : Expr}
    {p : String × Expr} (hp : p ∈ btreeInsert l k v) : p.1 = k ∨ p ∈ l := by
  induction l with
  | nil =>
    simp only [btreeInsert, List.mem_singleton] at hp
    subst hp
    exact Or.inl rfl
  | cons hd rest ih =>
    obtain ⟨k', v'⟩ := hd
    simp only [btreeInsert] at hp
    by_cases h1 : k < k'
    · rw [if_pos h1] at hp
      simp only [List.mem_cons] at hp
      rcases hp with rfl | hp
      · exact Or.inl rfl
      · exact Or.inr (by simp [hp])
    · rw [if_neg h1] at hp
      by_cases h2 : k = k'
      · rw [if_pos h2] at hp
        simp only [List.mem_cons] at hp
        rcases hp with rfl | hp
        · exact Or.inl rfl
        · exact Or.inr (by simp [hp])
      · rw [if_neg h2] at hp
        simp only [List.mem_cons] at hp
        rcases hp with rfl | hp
        · exact Or.inr (by simp)
        · rcases ih hp with h | h
          · exact Or.inl h
          · exact Or.inr (by simp [h])

theorem btreeInsert_sorted {l : List (String × Expr)} (k : String) (v : Expr)
    (h : KeysSorted l) : KeysSorted (btreeInsert l k v) := by
  induction l with
  | nil => exact List.pairwise_singleton _ _
  | cons hd rest ih =>
    obtain ⟨k', v'⟩ := hd
    rw [KeysSorted, List.pairwise_cons] at h
    obtain ⟨hhd, hrest⟩ := h
    simp only [btreeInsert]
    by_cases h1 : k < k'
    · rw [if_pos h1]
      rw [KeysSorted, List.pairwise_cons]
      refine ⟨?_, List.Pairwise.cons hhd hrest⟩
      intro q hq
      simp only [List.mem_cons] at hq
      rcases hq with rfl | hq
      · exact h1
      · exact lt_trans h1 (hhd q hq)
    · rw [if_neg h1]
      by_cases h2 : k = k'
      · rw [if_pos h2]
        rw [KeysSorted, List.pairwise_cons]
        exact ⟨fun q hq => h2 ▸ hhd q hq, hrest⟩
      · rw [if_neg h2]
        rw [KeysSorted, List.pairwise_cons]
        refine ⟨?_, ih hrest⟩
        intro q hq
        rcases mem_btreeInsert hq with hqk | hq
        · rw [hqk]
          exact lt_of_le_of_ne (le_of_not_lt h1) (Ne.symm h2)
        · exact hhd q hq

theorem foldl_btreeInsert_sorted (pairs : List (String × Expr))
    (acc : List (String × Expr)) (hacc : KeysSorted acc) :
    KeysSorted (pairs.foldl (fun acc kv => btreeInsert acc kv.1 kv.2) acc) := by
  induction pairs generalizing acc with
  | nil => exact hacc
  | cons kv rest ih =>
    exact ih _ (btreeInsert_sorted kv.1 kv.2 hacc)

/-- C6: for every declaration order of attributes, a built set enumerates
and displays its attributes in strictly ascending (lexicographic) key
order with unique keys; in particular inserting "b" then "a" enumerates
"a" before "b". -/
theorem set_enumeration_sorted (pairs : List (String × Expr)) :
    KeysSorted (setEntries (setFromList pairs)) ∧
    (displayKeys (setFromList pairs)).Pairwise (· < ·) ∧
    (displayKeys (setFromList pairs)).Nodup ∧
    displayKeys (setFromList
        [("b", Expr.Value (Value.Int 2)), ("a", Expr.Value (Value.Int 1))]) =
      ["a", "b"] := by
  have hsorted : KeysSorted (setEntries (setFromList pairs)) := by
    show KeysSorted (pairs.foldl (fun acc kv => btreeInsert acc kv.1 kv.2) [])
    exact foldl_btreeInsert_sorted pairs [] (List.Pairwise.nil)
  have hdk : (displayKeys (setFromList pairs)).Pairwise (· < ·) := by
    rw [displayKeys, List.pairwise_map]
    exact hsorted
  refine ⟨hsorted, hdk, hdk.imp ne_of_lt, ?_⟩
  have hab : ("a" : String) < "b" := String.lt_iff_toList_lt.mpr (by decide)
  simp [displayKeys, setFromList, setEntries, btreeInsert, hab]

/-! ## Path-literal translation (the `RawExpr::Value` arm of
`Builder::translate_expr`, build.rs lines 86–121) -/

/-- Mirrors `rnix::value::Anchor`: how a parsed path is anchored. -/
inductive Anchor : Type
  | Absolute
  | Relative
  | Home
  | Store
  | Uri
deriving Repr, DecidableEq

/-- Mirrors `rnix::value::Value`, the parser's literal value, after a
successful `to_value` conversion. -/
inductive RnixValue : Type
  | Float (f : Float64)
  | Integer (i : Int)
  | Str (content : String) (multiline : Bool)
  | RPath (anchor : Anchor) (path : String)

/-- Mirrors `PathBuf::push` for the relative path arguments it receives
here: append a component below the base directory. -/
def pathJoin (base p : String) : String :=
  base ++ "/" ++ p

/-- Mirrors the conversion of a parsed literal to an `Expr` (build.rs
86–121): floats/ints/strings become literal values; a URI-form path becomes
a plain string; an absolute path is used as-is; a relative path is
prefixed with the search directory; a home-relative path is prefixed with
the home directory (`BaseDirs::home_dir`, passed in as `home`); an
angle-bracket (`Store`) path is *not* resolved and becomes a deferred
`Expr.NixPath` node. -/
def translateValueExpr (searchPath home : String) : RnixValue → Expr
  | RnixValue.Float f => Expr.Value (Value.Float f)
  | RnixValue.Integer i => Expr.Value (Value.Int i)
  | RnixValue.Str content _ => Expr.Value (Value.String content)
  | RnixValue.RPath Anchor.Uri content => Expr.Value (Value.String content)
  | RnixValue.RPath Anchor.Absolute p => Expr.Value (Value.Path p)
  | RnixValue.RPath Anchor.Relative p =>
    Expr.Value (Value.Path (pathJoin searchPath p))
  | RnixValue.RPath Anchor.Home p => Expr.Value (Value.Path (pathJoin home p))
  | RnixValue.RPath Anchor.Store p => Expr.NixPath p

/-- C7: path literals translate as specified — absolute unchanged,
relative prefixed with the search directory, home-relative prefixed with
the home directory, URI-form to a plain string value, and angle-bracket
search paths to a deferred `NixPath` expression node instead of a value. -/
theorem translate_path_literals (searchPath home p : String) :
    translateValueExpr searchPath home (RnixValue.RPath Anchor.Absolute p) =
      Expr.Value (Value.Path p) ∧
    translateValueExpr searchPath home (RnixValue.RPath Anchor.Relative p) =
      Expr.Value (Value.Path (pathJoin searchPath p)) ∧
    translateValueExpr searchPath home (RnixValue.RPath Anchor.Home p) =
      Expr.Value (Value.Path (pathJoin home p)) ∧
    translateValueExpr searchPath home (RnixValue.RPath Anchor.Uri p) =
      Expr.Value (Value.String p) ∧
    translateValueExpr searchPath home (RnixValue.RPath Anchor.Store p) =
      Expr.NixPath p :=
  ⟨rfl, rfl, rfl, rfl, rfl⟩

/-! ## Evaluation of `Assert` nodes -/

/-- Evaluation errors, from the spec's closed error-kind list (section 7):
the kinds the embedded evaluator can produce.  `unimplementedNode` stands
for the `unimplemented!()` panic of eval.rs on every other node. -/
inductive EvalError : Type
  | typeMismatch
  | assertionFailed
  | unimplementedNode
deriving Repr, DecidableEq

/-- Modelled from the spec: `EvalContext::eval_expr` (eval.rs 89–94)
implements only the literal-`Value` arm (returning a clone) and panics
with `unimplemented!()` on everything else; the `Assert` behaviour is
missing from the source and is modelled from spec section 4.5 and the doc
comment on `Expr::Assert` (ast/mod.rs 38–47): evaluate the assertion,
require a `Bool` (via `Value::as_bool`, type error otherwise), fail with an
assertion error if it is false, evaluate `then` if it is true. -/
def evalExpr : Expr → Except EvalError Value
  | Expr.Value v => Except.ok v
  | Expr.Assert assertion then_ =>
    match evalExpr assertion with
    | Except.error e => Except.error e
    | Except.ok v =>
      match as_bool v with
      | none => Except.error EvalError.typeMismatch
      | some false => Except.error EvalError.assertionFailed
      | some true => evalExpr then_
  | _ => Except.error EvalError.unimplementedNode

/-- C8: evaluating `Assert{assertion, then}` first evaluates the
assertion (propagating its error); a non-`Bool` result is a type error; a
false assertion is an assertion error and the `then` branch is never
evaluated (the result does not depend on `then` at all); a true assertion
evaluates to the `then` branch. -/
theorem eval_assert_spec (a t : Expr) :
    (∀ e, evalExpr a = Except.error e →
      evalExpr (Expr.Assert a t) = Except.error e) ∧
    (∀ v, evalExpr a = Except.ok v → as_bool v = none →
      evalExpr (Expr.Assert a t) = Except.error EvalError.typeMismatch) ∧
    (evalExpr a = Except.ok (Value.Bool false) →
      evalExpr (Expr.Assert a t) = Except.error EvalError.assertionFailed ∧
      ∀ t₂, evalExpr (Expr.Assert a t) = evalExpr (Expr.Assert a t₂)) ∧
    (evalExpr a = Except.ok (Value.Bool true) →
      evalExpr (Expr.Assert a t) = evalExpr t) := by
  refine ⟨?_, ?_, ?_, ?_⟩
  · intro e he
    simp only [evalExpr, he]
  · intro v hv hb
    simp only [evalExpr, hv, hb]
  · intro hv
    constructor
    · simp only [evalExpr, hv, as_bool]
    · intro t₂
      simp only [evalExpr, hv, as_bool]
  · intro hv
    simp only [evalExpr, hv, as_bool]

/-- C8 witness: `assert true; 42` evaluates to `Int(42)`, and
`assert false; 42` fails with an assertion error. -/
theorem eval_assert_spec_witness :
    evalExpr (Expr.Assert (Expr.Value (Value.Bool true))
        (Expr.Value (Value.Int 42))) = Except.ok (Value.Int 42) ∧
    evalExpr (Expr.Assert (Expr.Value (Value.Bool false))
        (Expr.Value (Value.Int 42))) = Except.error EvalError.assertionFailed :=
  ⟨(eval_assert_spec (Expr.Value (Value.Bool true))
      (Expr.Value (Value.Int 42))).2.2.2 rfl,
   ((eval_assert_spec (Expr.Value (Value.Bool false))
      (Expr.Value (Value.Int 42))).2.2.1 rfl).1⟩

/-! ## Integer semantics (value.rs `Value::Int`; spec section 4.5) -/

/-- Minimum value of a 64-bit signed integer. -/
def i64Min : Int := -9223372036854775808

/-- Maximum value of a 64-bit signed integer. -/
def i64Max : Int := 9223372036854775807

/-- Two's-complement reduction of an integer into the `i64` range. -/
def i64Wrap (x : Int) : Int :=
  (x + 2 ^ 63) % 2 ^ 64 - 2 ^ 63

/-- Negation on `i64` values with two's-complement wraparound. -/
def i64Neg (x : Int) : Int := i64Wrap (-x)

/-- Subtraction on `i64` values with two's-complement wraparound. -/
def i64Sub (a b : Int) : Int := i64Wrap (a - b)

/-- Mirrors `rnix::value::ValueError`, the literal-conversion failure that
build.rs (lines 75–84) maps onto a build error message. -/
inductive ValueError : Type
  | Float
  | Integer
  | String
  | StorePath
  | Unknown
deriving Repr, DecidableEq

/-- Modelled from the spec: integer-literal conversion lives in the
external `rnix` parser (`to_value`, whose failure build.rs maps to a
conversion error).  A literal token carries an unsigned decimal magnitude
(a leading minus is a separate negation), and conversion rejects
magnitudes above the maximum `i64`, which is what makes the minimum
(−2^63) unreachable as a single literal token (spec section 4.5; doc
comment on `Value::Int` in value.rs). -/
def intLiteralToValue (magnitude : Nat) : Except ValueError Value :=
  if (magnitude : Int) ≤ i64Max then Except.ok (Value.Int magnitude)
  else Except.error ValueError.Integer

/-- C9: the literal token needed to denote the minimum 64-bit signed
integer (magnitude 9223372036854775808) is rejected with an integer
conversion error, while the maximum magnitude is accepted, and
`(-9223372036854775807) - 1` evaluates — with two's-complement `i64`
arithmetic and no wraparound actually occurring — to that minimum value. -/
theorem int_literal_boundary :
    intLiteralToValue 9223372036854775808 = Except.error ValueError.Integer ∧
    intLiteralToValue 9223372036854775807 =
      Except.ok (Value.Int 9223372036854775807) ∧
    i64Sub (i64Neg 9223372036854775807) 1 = i64Min ∧
    i64Min = -(2 ^ 63) ∧ i64Min ≤ i64Sub (i64Neg 9223372036854775807) 1 := by
  refine ⟨?_, ?_, by decide, by decide, by decide⟩
  · rw [intLiteralToValue, if_neg (by decide)]
  · rw [intLiteralToValue, if_pos (by decide)]
    norm_num

end Nxt
